import Mathlib

/-!
Verification development for the ghost-discord-worker repository: a shallow
embedding of the worker's mapping-store logic, webhook reconciliation, and
self-service link/unlink handlers, together with theorems about the spec's
claims.

The key-value mapping store (Cloudflare KV) is modelled as a function from
string keys to optional string values.  Role mutations and directory lookups
are external calls; they are modelled by recording the issued calls and by
passing the outcomes of the external fetches as oracle parameters.
-/

namespace GhostDiscord

/-- Models the JS string lowercasing used at every email boundary. -/
def jsToLower (s : String) : String := ⟨s.data.map Char.toLower⟩

/-- Models `String.prototype.startsWith`: the first characters equal the
given prefix string. -/
def jsStartsWith (s pre : String) : Bool := s.data.take pre.data.length == pre.data

/-- The KV mapping store: string keys to optional string values. -/
def Store : Type := String → Option String

/-- The empty KV store. -/
def emptyStore : Store := fun _ => none

/-- A write against the KV store: `put key value` or `del key`. -/
inductive StoreWrite where
  | put (key value : String)
  | del (key : String)
deriving DecidableEq, Repr

/-- Apply one write to the store. -/
def applyWrite (s : Store) : StoreWrite → Store
  | .put k v => fun k' => if k' = k then some v else s k'
  | .del k => fun k' => if k' = k then none else s k'

/-- Apply a list of writes to the store, left to right (in issue order). -/
def applyWrites (s : Store) (ws : List StoreWrite) : Store :=
  ws.foldl applyWrite s

/-- The reverse-lookup key for a Discord user id: the source uses the key
string `discord:` followed by the user id. -/
def reverseKey (userId : String) : String := "discord:" ++ userId

/-- True when a string contains no colon character.  Every email accepted by
the source's validation is colon-free, while every reverse-lookup key
contains a colon, so colon-free keys are exactly the possible email keys. -/
def colonFree (s : String) : Bool := s.data.all (fun c => c != ':')

/-- The worker environment bindings from `types.ts` (the KV namespace itself
is passed separately as a `Store`). -/
structure Env where
  WEBHOOK_SECRET : String
  ADMIN_SECRET : String
  DISCORD_BOT_TOKEN : String
  DISCORD_GUILD_ID : String
  DISCORD_ROLE_MEMBER : String
  DISCORD_ROLE_PREMIUM : String
  DISCORD_PUBLIC_KEY : String
  GHOST_URL : String
  GHOST_ADMIN_API_KEY : String
deriving DecidableEq, Repr

/-- Ghost membership status (`MemberStatus` in `types.ts`). -/
inductive MemberStatus where
  | free
  | paid
  | comped
deriving DecidableEq, Repr

/-- From `utils.ts`: returns true for `paid` and `comped` statuses, which both
grant premium access. -/
def isPaid (status : MemberStatus) : Bool :=
  status = MemberStatus.paid || status = MemberStatus.comped

/-- HTTP method of a Discord role-mutation call: `PUT` adds a role, `DELETE`
removes it (`modifyMemberRole` in `discord.ts`). -/
inductive RoleMethod where
  | put
  | delete
deriving DecidableEq, Repr

/-- One role-mutation call issued to the Discord API. -/
structure RoleCall where
  method : RoleMethod
  userId : String
  roleId : String
deriving DecidableEq, Repr

/-- `GhostMemberData` from `types.ts`. -/
structure GhostMemberData where
  id : Option String
  email : String
  name : Option String
  status : MemberStatus
deriving DecidableEq, Repr

/-- The `previous` field of a webhook payload, `Partial<GhostMemberData>`:
every field may be absent. -/
structure PreviousData where
  id : Option String
  email : Option String
  name : Option String
  status : Option MemberStatus
deriving DecidableEq, Repr

/-- Models `Object.keys(member.previous).length > 0`: at least one field of
the partial previous object is present. -/
def previousNonempty (p : PreviousData) : Bool :=
  p.id.isSome || p.email.isSome || p.name.isSome || p.status.isSome

/-- The `member` object of a Ghost webhook payload; the runtime checks in the
handlers guard against a missing `current`. -/
structure MemberPayload where
  current : Option GhostMemberData
  previous : Option PreviousData
deriving DecidableEq, Repr

/-- A parsed Ghost webhook JSON payload; the runtime checks guard against a
missing `member`. -/
structure WebhookPayload where
  member : Option MemberPayload
deriving DecidableEq, Repr

/-- An inbound webhook request: the `secret` query parameter and the parsed
JSON body (`none` models a JSON parse failure). -/
structure WebhookRequest where
  secret : Option String
  payload : Option WebhookPayload
deriving DecidableEq, Repr

/-- The distinct JSON responses the webhook handlers can produce. -/
inductive HandlerResponse where
  | unauthorized
  | invalidJson
  | invalidPayload
  | skippedNoMapping
  | ok
deriving DecidableEq, Repr

/-- The HTTP status code attached to each webhook handler response in the
source (`json(data, status)`). -/
def responseStatus : HandlerResponse → Nat
  | .unauthorized => 401
  | .invalidJson => 400
  | .invalidPayload => 400
  | .skippedNoMapping => 200
  | .ok => 200

/-- Result of `getGhostMember` in `ghost.ts`. -/
inductive GhostLookupResult where
  | found (member : GhostMemberData)
  | notFound
  | error (message : String)
deriving DecidableEq, Repr

/-- Outcome of the single `fetch` to the Ghost Admin API inside
`getGhostMember`: the fetch may throw (`fetchError`), or return a response
with a status code, a body text, and, when the body is parsed, a list of
members. -/
inductive GhostFetchOutcome where
  | fetchError (err : String)
  | response (status : Nat) (bodyText : String) (members : List GhostMemberData)
deriving DecidableEq, Repr

/-- From `ghost.ts`: classify the fetch outcome.  A thrown fetch and a
non-2xx response both become `error` with a sanitized message; a 2xx response
yields `found` on a nonempty member list and `notFound` otherwise. -/
def getGhostMember (f : GhostFetchOutcome) : GhostLookupResult :=
  match f with
  | .fetchError _ => .error "Unable to reach Ghost API."
  | .response status _ members =>
    if 200 ≤ status ∧ status < 300 then
      match members with
      | [] => .notFound
      | m :: _ => .found m
    else
      .error ("Ghost API returned " ++ toString status ++ ".")

/-! ### UTF-8 encoding (models the platform `TextEncoder`)

`timingSafeEqual` in `utils.ts` compares the `TextEncoder` encodings of its
arguments.  `TextEncoder` produces the UTF-8 bytes of the string; it is a
platform primitive, modelled here from its specification. -/

/-- UTF-8 encoding of a single Unicode scalar value, as a list of byte
values.  Modelled from the spec: the platform `TextEncoder` byte layout. -/
def encodeCodepoint (v : Nat) : List Nat :=
  if v < 0x80 then [v]
  else if v < 0x800 then [0xC0 + v / 64, 0x80 + v % 64]
  else if v < 0x10000 then [0xE0 + v / 4096, 0x80 + v / 64 % 64, 0x80 + v % 64]
  else [0xF0 + v / 262144, 0x80 + v / 4096 % 64, 0x80 + v / 64 % 64, 0x80 + v % 64]

/-- UTF-8 encoding of a character sequence. -/
def utf8Bytes : List Char → List Nat
  | [] => []
  | c :: cs => encodeCodepoint c.val.toNat ++ utf8Bytes cs

/-- From `utils.ts`: constant-time string comparison.  XORs the byte lengths,
then ORs in the XOR of each byte pair over the longer length (absent bytes
read as 0), and succeeds only if the accumulated result is zero. -/
def timingSafeEqual (a b : String) : Bool :=
  let bufA := utf8Bytes a.data
  let bufB := utf8Bytes b.data
  let maxLen := max bufA.length bufB.length
  let result := (List.range maxLen).foldl
    (fun r i => r ||| (bufA.getD i 0 ^^^ bufB.getD i 0))
    (bufA.length ^^^ bufB.length)
  result == 0

/-! ### Email validation (`isValidEmail` in `utils.ts`)

The source tests its `EMAIL_REGEX` and enforces a maximum length of 254.
The regular expression is implemented here as an executable matcher over the
character list: one or more local-part characters, an `@`, then dot-separated
domain labels, each label being alphanumeric at both ends with up to 61
alphanumeric-or-hyphen characters in between. -/

/-- Characters allowed in the local part besides alphanumerics (the character
class of the source's `EMAIL_REGEX` before the `@`). -/
def localExtraChars : String := ".!#$%&\x27*+/=?^_\x60\x7b|\x7d~-"

/-- A character allowed in the local part of an email. -/
def isLocalChar (c : Char) : Bool := c.isAlphanum || localExtraChars.data.contains c

/-- A character allowed in the middle of a domain label. -/
def isLabelChar (c : Char) : Bool := c.isAlphanum || c = '-'

/-- Matches the optional tail of a domain label after its first character:
up to `budget` middle characters (alphanumeric or hyphen) followed by a final
alphanumeric character, or nothing at all. -/
def labelTail : Nat → List Char → Bool
  | _, [] => true
  | _, [d] => d.isAlphanum
  | budget, d :: rest => !(budget == 0) && isLabelChar d && labelTail (budget - 1) rest

/-- Matches one domain label: `[a-zA-Z0-9](?:[a-zA-Z0-9-]{0,61}[a-zA-Z0-9])?`. -/
def labelOK : List Char → Bool
  | [] => false
  | c :: rest => c.isAlphanum && labelTail 61 rest

/-- Split a character list on dots, keeping empty pieces, mirroring how the
domain part of the regex is a dot-separated list of labels. -/
def splitDots : List Char → List (List Char)
  | [] => [[]]
  | c :: cs =>
    if c = '.' then [] :: splitDots cs
    else
      match splitDots cs with
      | g :: gs => (c :: g) :: gs
      | [] => [[c]]

/-- Matches the domain part of the regex: one or more dot-separated labels. -/
def matchDomain (cs : List Char) : Bool :=
  (splitDots cs).all labelOK

/-- Consume local-part characters up to the first `@` and return the rest;
fails if a non-local character appears before any `@` or no `@` exists. -/
def splitLocalPart : List Char → Option (List Char)
  | [] => none
  | c :: cs =>
    if c = '@' then some cs
    else if isLocalChar c then splitLocalPart cs
    else none

/-- Matches the whole email regex: at least one local character, then `@`,
then a valid domain. -/
def matchEmailChars : List Char → Bool
  | [] => false
  | c :: rest =>
    isLocalChar c &&
      match splitLocalPart rest with
      | some domain => matchDomain domain
      | none => false

/-- From `utils.ts`: email format validation, `EMAIL_REGEX.test(email) &&
email.length <= 254`. -/
def isValidEmail (email : String) : Bool :=
  matchEmailChars email.data && email.length ≤ 254

/-! ### Webhook handlers (the webhook handler module) -/

/-- The role calls issued by `handleWebhook` after the mapping lookup
succeeded (the member.added / member.updated reconciliation logic). -/
def webhookRoleCalls (env : Env) (discordUserId : String)
    (current : GhostMemberData) (previous : Option PreviousData) : List RoleCall :=
  let hasPrevious :=
    match previous with
    | some p => previousNonempty p
    | none => false
  if !hasPrevious then
    RoleCall.mk .put discordUserId env.DISCORD_ROLE_MEMBER ::
      (if isPaid current.status then
        [RoleCall.mk .put discordUserId env.DISCORD_ROLE_PREMIUM]
      else [])
  else
    match previous with
    | none => []
    | some p =>
      match p.status with
      | none => []
      | some prevStatus =>
        if prevStatus ≠ current.status then
          if !isPaid prevStatus && isPaid current.status then
            [RoleCall.mk .put discordUserId env.DISCORD_ROLE_PREMIUM]
          else if isPaid prevStatus && !isPaid current.status then
            [RoleCall.mk .delete discordUserId env.DISCORD_ROLE_PREMIUM]
          else []
        else []

/-- The role calls issued by `handleWebhookDeleted` after the mapping lookup
succeeded: remove the member role, then the premium role, unconditionally. -/
def webhookDeletedRoleCalls (env : Env) (discordUserId : String) : List RoleCall :=
  [RoleCall.mk .delete discordUserId env.DISCORD_ROLE_MEMBER,
   RoleCall.mk .delete discordUserId env.DISCORD_ROLE_PREMIUM]

/-- Result of a webhook handler: the JSON response it returns, the role calls
it issued, and the KV writes it performed (the webhook handlers never write
the store). -/
structure WebhookResult where
  response : HandlerResponse
  roleCalls : List RoleCall
  writes : List StoreWrite
deriving DecidableEq, Repr

/-- Shared request parsing of both webhook handlers
(`parseWebhookRequest`): authenticate the shared secret,
require a parsed payload with `member.current.email`, and resolve the Discord
mapping; `none` means the handler already produced the returned response. -/
def parseWebhookRequest (env : Env) (s : Store) (req : WebhookRequest) :
    Sum WebhookResult (String × String × GhostMemberData × Option PreviousData) :=
  match req.secret with
  | none => .inl ⟨.unauthorized, [], []⟩
  | some secret =>
    if secret = "" then .inl ⟨.unauthorized, [], []⟩
    else if !timingSafeEqual secret env.WEBHOOK_SECRET then .inl ⟨.unauthorized, [], []⟩
    else
      match req.payload with
      | none => .inl ⟨.invalidJson, [], []⟩
      | some payload =>
        match payload.member with
        | none => .inl ⟨.invalidPayload, [], []⟩
        | some m =>
          match m.current with
          | none => .inl ⟨.invalidPayload, [], []⟩
          | some current =>
            if current.email = "" then .inl ⟨.invalidPayload, [], []⟩
            else
              let email := jsToLower current.email
              match s email with
              | none => .inl ⟨.skippedNoMapping, [], []⟩
              | some discordUserId =>
                if discordUserId = "" then .inl ⟨.skippedNoMapping, [], []⟩
                else .inr ⟨email, discordUserId, current, m.previous⟩

/-- The `handleWebhook` handler (member.added / member.updated).  The
`oracle` gives the outcome of each issued Discord role call; the handler
discards those outcomes, so the oracle does not influence the result. -/
def handleWebhook (env : Env) (s : Store) (req : WebhookRequest)
    (_oracle : RoleCall → Option String) : WebhookResult :=
  match parseWebhookRequest env s req with
  | .inl r => r
  | .inr ⟨_, discordUserId, current, previous⟩ =>
    ⟨.ok, webhookRoleCalls env discordUserId current previous, []⟩

/-- The `handleWebhookDeleted` handler (member.deleted). -/
def handleWebhookDeleted (env : Env) (s : Store) (req : WebhookRequest)
    (_oracle : RoleCall → Option String) : WebhookResult :=
  match parseWebhookRequest env s req with
  | .inl r => r
  | .inr ⟨_, discordUserId, _, _⟩ =>
    ⟨.ok, webhookDeletedRoleCalls env discordUserId, []⟩

/-! ### Self-service link/unlink handlers (the Discord interaction module) -/

/-- Result of a slash-command handler: the ephemeral reply content, the KV
writes performed, and the role calls issued. -/
structure LinkResult where
  reply : String
  writes : List StoreWrite
  roleCalls : List RoleCall
deriving DecidableEq, Repr

/-- Models `existing && existing !== mine` on a KV read: the read value is
truthy (present and nonempty) and differs from `mine`. -/
def conflictsWith (found : Option String) (mine : String) : Bool :=
  match found with
  | some v => v != "" && v != mine
  | none => false

/-- The tail of `handleLinkCommand` once both conflict checks passed: verify
the email against Ghost, persist the bidirectional mapping, grant the member
role and, for paid/comped members, the premium role, collecting role errors. -/
def linkVerifyAndWrite (env : Env) (email userId : String)
    (ghostFetch : GhostFetchOutcome) (oracle : RoleCall → Option String) : LinkResult :=
  match getGhostMember ghostFetch with
  | .error msg =>
    ⟨"An error occurred while verifying your email: " ++ msg, [], []⟩
  | .notFound =>
    ⟨"This email is not associated with any Ghost membership.", [], []⟩
  | .found member =>
    let writes := [StoreWrite.put email userId, StoreWrite.put (reverseKey userId) email]
    let c1 : RoleCall := ⟨.put, userId, env.DISCORD_ROLE_MEMBER⟩
    let c2 : RoleCall := ⟨.put, userId, env.DISCORD_ROLE_PREMIUM⟩
    let premium := isPaid member.status
    let calls := if premium then [c1, c2] else [c1]
    let errors := (oracle c1).toList ++ (if premium then (oracle c2).toList else [])
    if errors.isEmpty then
      ⟨"Your email **" ++ email ++ "** has been linked to your Discord account.",
        writes, calls⟩
    else
      ⟨"Your email **" ++ email ++
        "** has been linked, but roles could not be assigned. Please contact an administrator.",
        writes, calls⟩

/-- The `handleLinkCommand` handler: the `/link` slash command.
`emailOpt` is the free-text email option; `ghostFetch` is the outcome of the
Ghost Admin API fetch; `oracle` gives the outcome of each Discord role call. -/
def handleLinkCommand (env : Env) (s : Store) (emailOpt : Option String)
    (userId : String) (ghostFetch : GhostFetchOutcome)
    (oracle : RoleCall → Option String) : LinkResult :=
  match emailOpt with
  | none => ⟨"Please provide your email.", [], []⟩
  | some raw =>
    let email := jsToLower raw
    if email = "" then ⟨"Please provide your email.", [], []⟩
    else if !isValidEmail email then ⟨"Please provide a valid email address.", [], []⟩
    else if conflictsWith (s email) userId then
      ⟨"This email is already linked to another Discord account.", [], []⟩
    else
      match s (reverseKey userId) with
      | some existingEmail =>
        if existingEmail != "" && existingEmail != email then
          ⟨"Your Discord account is already linked to **" ++ existingEmail ++
            "**. Use \x60/unlink\x60 first.", [], []⟩
        else linkVerifyAndWrite env email userId ghostFetch oracle
      | none => linkVerifyAndWrite env email userId ghostFetch oracle

/-- The `handleUnlinkCommand` handler: the `/unlink` slash
command.  Reads the reverse mapping; if absent (or empty, hence falsy),
reports the no-op reply; otherwise deletes the forward and reverse entries.
It never issues role calls. -/
def handleUnlinkCommand (s : Store) (userId : String) : LinkResult :=
  match s (reverseKey userId) with
  | none => ⟨"No email is linked to your Discord account.", [], []⟩
  | some email =>
    if email = "" then ⟨"No email is linked to your Discord account.", [], []⟩
    else
      ⟨"Your email **" ++ email ++ "** has been unlinked from your Discord account.",
        [StoreWrite.del email, StoreWrite.del (reverseKey userId)], []⟩

/-! ### Administrative link endpoints (the admin link endpoints) -/

/-- The JSON body of `POST /link`. -/
structure LinkPostBody where
  email : Option String
  discord_user_id : Option String
deriving DecidableEq, Repr

/-- The JSON body of `DELETE /link`. -/
structure LinkDeleteBody where
  email : Option String
deriving DecidableEq, Repr

/-- The distinct JSON responses of the admin endpoints. -/
inductive AdminResponse where
  | unauthorized
  | invalidJson
  | missingFields
  | invalidEmail
  | ok
deriving DecidableEq, Repr

/-- Result of an admin endpoint: the response and the KV writes performed. -/
structure AdminResult where
  response : AdminResponse
  writes : List StoreWrite
deriving DecidableEq, Repr

/-- The `checkAdmin` helper: the Authorization header must be present,
start with `Bearer `, and the rest must match the admin secret under the
timing-safe comparison. -/
def checkAdmin (auth : Option String) (env : Env) : Bool :=
  match auth with
  | none => false
  | some a => jsStartsWith a "Bearer " && timingSafeEqual (a.drop 7) env.ADMIN_SECRET

/-- The `handleLinkPost` handler: `POST /link` creates both mapping
directions with no conflict checks.  The email is validated raw and
lowercased for storage. -/
def handleLinkPost (env : Env) (auth : Option String)
    (body : Option LinkPostBody) : AdminResult :=
  if !checkAdmin auth env then ⟨.unauthorized, []⟩
  else
    match body with
    | none => ⟨.invalidJson, []⟩
    | some b =>
      match b.email, b.discord_user_id with
      | some e, some u =>
        if e = "" || u = "" then ⟨.missingFields, []⟩
        else if !isValidEmail e then ⟨.invalidEmail, []⟩
        else
          ⟨.ok, [StoreWrite.put (jsToLower e) u, StoreWrite.put (reverseKey u) (jsToLower e)]⟩
      | _, _ => ⟨.missingFields, []⟩

/-- The `handleLinkDelete` handler: `DELETE /link` reads the forward
entry, deletes it, and deletes the corresponding reverse entry when the read
produced a truthy user id. -/
def handleLinkDelete (env : Env) (s : Store) (auth : Option String)
    (body : Option LinkDeleteBody) : AdminResult :=
  if !checkAdmin auth env then ⟨.unauthorized, []⟩
  else
    match body with
    | none => ⟨.invalidJson, []⟩
    | some b =>
      match b.email with
      | none => ⟨.missingFields, []⟩
      | some e =>
        if e = "" then ⟨.missingFields, []⟩
        else
          let email := jsToLower e
          let delRev :=
            match s email with
            | some discordUserId =>
              if discordUserId = "" then [] else [StoreWrite.del (reverseKey discordUserId)]
            | none => []
          ⟨.ok, StoreWrite.del email :: delRev⟩

/-! ### Operation sequences over the mapping store -/

/-- One mapping-store operation, with everything its handler consults:
request arguments, the admin Authorization header where applicable, and the
Ghost fetch outcome for the self-service link. -/
inductive LinkOp where
  | selfLink (emailOpt : Option String) (userId : String) (ghostFetch : GhostFetchOutcome)
  | selfUnlink (userId : String)
  | adminPost (auth : Option String) (body : Option LinkPostBody)
  | adminDelete (auth : Option String) (body : Option LinkDeleteBody)

/-- The store after one operation: the handler's writes applied in order.
Failed operations produce no writes and leave the store unchanged. -/
def applyOp (env : Env) (s : Store) : LinkOp → Store
  | .selfLink emailOpt userId ghostFetch =>
    applyWrites s (handleLinkCommand env s emailOpt userId ghostFetch (fun _ => none)).writes
  | .selfUnlink userId => applyWrites s (handleUnlinkCommand s userId).writes
  | .adminPost auth body => applyWrites s (handleLinkPost env auth body).writes
  | .adminDelete auth body => applyWrites s (handleLinkDelete env s auth body).writes

/-- The store after a sequence of operations, applied left to right. -/
def runOps (env : Env) (s : Store) (ops : List LinkOp) : Store :=
  ops.foldl (applyOp env) s

/-- Side conditions under which the bidirectional invariant is preserved:
self-service links carry a nonempty requester id, administrative deletes are
given colon-free email arguments, and the administrative POST (which performs
no conflict checks) does not occur. -/
def opSafe : LinkOp → Bool
  | .selfLink _ userId _ => userId != ""
  | .selfUnlink _ => true
  | .adminPost _ _ => false
  | .adminDelete _ body =>
    match body with
    | some b =>
      match b.email with
      | some e => colonFree (jsToLower e)
      | none => true
    | none => true

/-! ### Spec-side decision table -/

/-- Modelled from the spec: the section 4.1 decision table.  `tier(status)`
is premium for `paid`/`comped`; an absent previous status is the added row
(grant base, plus premium iff the current tier is premium); equal tiers do
nothing; base-to-premium grants premium only; premium-to-base revokes
premium only. -/
def specTierAction (env : Env) (discordUserId : String)
    (prev : Option MemberStatus) (curr : MemberStatus) : List RoleCall :=
  match prev with
  | none =>
    RoleCall.mk .put discordUserId env.DISCORD_ROLE_MEMBER ::
      (if isPaid curr then [RoleCall.mk .put discordUserId env.DISCORD_ROLE_PREMIUM] else [])
  | some p =>
    if isPaid p = isPaid curr then []
    else if isPaid curr then [RoleCall.mk .put discordUserId env.DISCORD_ROLE_PREMIUM]
    else [RoleCall.mk .delete discordUserId env.DISCORD_ROLE_PREMIUM]

/-! ### Concrete sample values used by witnesses and counterexamples -/

/-- A concrete environment. -/
def sampleEnv : Env :=
  ⟨"whsec", "admsec", "bottoken", "guild1", "roleMember", "rolePremium",
    "pubkey", "https://ghost.example", "keyid:aabb"⟩

/-- A concrete Ghost member with status `paid`. -/
def samplePaidMember : GhostMemberData :=
  ⟨none, "a@x.com", none, .paid⟩

/-- A concrete Ghost fetch outcome: HTTP 200 with one paid member. -/
def sampleFoundFetch : GhostFetchOutcome :=
  .response 200 "" [samplePaidMember]

/-- Two administrative POST /link operations that map two different emails to
the same Discord user id, overwriting the reverse entry. -/
def doublePostOps : List LinkOp :=
  [.adminPost (some ("Bearer admsec")) (some ⟨some "a@x.com", some "u1"⟩),
   .adminPost (some ("Bearer admsec")) (some ⟨some "b@x.com", some "u1"⟩)]

/-- Decoder for the UTF-8 head: inverse of `encodeCodepoint` on valid input. -/
def decodeHead : List Nat → Option (Nat × List Nat)
  | [] => none
  | b0 :: rest =>
    if b0 < 0x80 then some (b0, rest)
    else if b0 < 0xE0 then
      match rest with
      | b1 :: rest2 => some ((b0 - 0xC0) * 64 + (b1 - 0x80), rest2)
      | [] => none
    else if b0 < 0xF0 then
      match rest with
      | b1 :: b2 :: rest3 => some ((b0 - 0xE0) * 4096 + (b1 - 0x80) * 64 + (b2 - 0x80), rest3)
      | _ => none
    else
      match rest with
      | b1 :: b2 :: b3 :: rest4 =>
        some ((b0 - 0xF0) * 262144 + (b1 - 0x80) * 4096 + (b2 - 0x80) * 64 + (b3 - 0x80), rest4)
      | _ => none

/-- The inductive invariant on the mapping store: forward entries (at
colon-free keys) and reverse entries agree, reverse values are nonempty
colon-free emails, and forward values (at colon-free keys) are nonempty. -/
def Inv (s : Store) : Prop :=
  (∀ e u, colonFree e = true → s e = some u → s (reverseKey u) = some e)
  ∧ (∀ u e, s (reverseKey u) = some e → colonFree e = true ∧ e ≠ "" ∧ s e = some u)
  ∧ (∀ e u, colonFree e = true → s e = some u → u ≠ "")

/-- A nonempty sequence of self-service operations used by the invariant witness. -/
def sampleSelfLinkOps : List LinkOp :=
  [.selfLink (some "A@X.com") "u1" sampleFoundFetch,
   .selfUnlink "u2",
   .adminDelete (some "Bearer admsec") (some ⟨some "gone@x.com"⟩)]

/-- A previous object that carries a name but no status. -/
def prevNameOnly : PreviousData := ⟨none, none, some "bob", none⟩

/-- A concrete webhook request used by witnesses. -/
def sampleWebhookReq : WebhookRequest :=
  ⟨some "whsec", some ⟨some ⟨some ⟨none, "A@x.com", none, .paid⟩, none⟩⟩⟩

/-- A concrete store with one mapped email, used by witnesses. -/
def sampleMappedStore : Store :=
  fun k => if k = "a@x.com" then some "U1" else none

/-! ### Theorems -/

set_option maxRecDepth 8000 in
theorem decodeHead_encode (v : Nat) (hv : v < 0x110000) (rest : List Nat) :
    decodeHead (encodeCodepoint v ++ rest) = some (v, rest) := by
  unfold encodeCodepoint
  by_cases h1 : v < 0x80
  · rw [if_pos h1]
    simp only [List.cons_append, List.nil_append, decodeHead, if_pos h1]
  · rw [if_neg h1]
    by_cases h2 : v < 0x800
    · rw [if_pos h2]
      simp only [List.cons_append, List.nil_append, decodeHead]
      rw [if_neg (by omega), if_pos (by omega)]
      congr 1
      congr 1
      omega
    · rw [if_neg h2]
      by_cases h3 : v < 0x10000
      · rw [if_pos h3]
        simp only [List.cons_append, List.nil_append, decodeHead]
        rw [if_neg (by omega), if_neg (by omega), if_pos (by omega)]
        congr 1
        congr 1
        omega
      · rw [if_neg h3]
        simp only [List.cons_append, List.nil_append, decodeHead]
        rw [if_neg (by omega), if_neg (by omega), if_neg (by omega)]
        congr 1
        congr 1
        omega

theorem encodeCodepoint_append_inj {v w : Nat} (hv : v < 0x110000) (hw : w < 0x110000)
    {l m : List Nat} (h : encodeCodepoint v ++ l = encodeCodepoint w ++ m) :
    v = w ∧ l = m := by
  have hd := decodeHead_encode v hv l
  rw [h, decodeHead_encode w hw m] at hd
  simp only [Option.some.injEq, Prod.mk.injEq] at hd
  exact ⟨hd.1.symm, hd.2.symm⟩

theorem encodeCodepoint_ne_nil (v : Nat) : encodeCodepoint v ≠ [] := by
  unfold encodeCodepoint
  split_ifs <;> simp

theorem char_val_lt (c : Char) : c.val.toNat < 0x110000 := by
  rcases c.valid with h | ⟨h1, h2⟩
  · omega
  · omega

theorem utf8Bytes_inj : ∀ {cs ds : List Char}, utf8Bytes cs = utf8Bytes ds → cs = ds := by
  intro cs
  induction cs with
  | nil =>
    intro ds h
    cases ds with
    | nil => rfl
    | cons d u =>
      simp only [utf8Bytes] at h
      exact absurd h.symm (by
        intro hc
        exact encodeCodepoint_ne_nil d.val.toNat (List.append_eq_nil.mp hc).1)
  | cons c t ih =>
    intro ds h
    cases ds with
    | nil =>
      simp only [utf8Bytes] at h
      exact absurd h (by
        intro hc
        exact encodeCodepoint_ne_nil c.val.toNat (List.append_eq_nil.mp hc).1)
    | cons d u =>
      simp only [utf8Bytes] at h
      obtain ⟨hv, hrest⟩ := encodeCodepoint_append_inj (char_val_lt c) (char_val_lt d) h
      have hc : c = d := Char.ext (UInt32.ext hv)
      rw [hc, ih hrest]

theorem lor_eq_zero {m n : Nat} (h : m ||| n = 0) : m = 0 ∧ n = 0 := by
  have ht : ∀ i, Nat.testBit m i = false ∧ Nat.testBit n i = false := by
    intro i
    have hc := congrArg (fun x => Nat.testBit x i) h
    simp only [Nat.testBit_lor, Nat.zero_testBit] at hc
    exact Bool.or_eq_false_iff.mp hc
  constructor
  · exact Nat.eq_of_testBit_eq fun i => by simp [(ht i).1, Nat.zero_testBit]
  · exact Nat.eq_of_testBit_eq fun i => by simp [(ht i).2, Nat.zero_testBit]

theorem foldl_lor_eq_zero (f : Nat → Nat) :
    ∀ (l : List Nat) (r : Nat), l.foldl (fun acc i => acc ||| f i) r = 0 →
      r = 0 ∧ ∀ i ∈ l, f i = 0 := by
  intro l
  induction l with
  | nil => intro r h; exact ⟨h, by simp⟩
  | cons a t ih =>
    intro r h
    simp only [List.foldl_cons] at h
    obtain ⟨h1, h2⟩ := ih _ h
    obtain ⟨hr, ha⟩ := lor_eq_zero h1
    refine ⟨hr, ?_⟩
    intro i hi
    rcases List.mem_cons.mp hi with rfl | hit
    · exact ha
    · exact h2 i hit

theorem foldl_lor_zero (f : Nat → Nat) :
    ∀ (l : List Nat), (∀ i ∈ l, f i = 0) → l.foldl (fun acc i => acc ||| f i) 0 = 0 := by
  intro l
  induction l with
  | nil => intro _; rfl
  | cons a t ih =>
    intro h
    simp only [List.foldl_cons]
    have h00 : (0 : Nat) ||| 0 = 0 := by decide
    rw [h a (by simp), h00]
    exact ih fun i hi => h i (List.mem_cons_of_mem _ hi)

theorem timingSafeEqual_eq_iff (a b : String) : timingSafeEqual a b = true ↔ a = b := by
  unfold timingSafeEqual
  simp only [beq_iff_eq]
  constructor
  · intro h
    obtain ⟨hlen, hbytes⟩ := foldl_lor_eq_zero _ _ _ h
    have hlen' : (utf8Bytes a.data).length = (utf8Bytes b.data).length :=
      Nat.xor_eq_zero.mp hlen
    have hAB : utf8Bytes a.data = utf8Bytes b.data := by
      apply List.ext_getElem hlen'
      intro i hi1 hi2
      have hi : i ∈ List.range (max (utf8Bytes a.data).length (utf8Bytes b.data).length) :=
        List.mem_range.mpr (lt_max_of_lt_left hi1)
      have hx := Nat.xor_eq_zero.mp (hbytes i hi)
      rw [List.getD_eq_getElem _ _ hi1, List.getD_eq_getElem _ _ hi2] at hx
      exact hx
    have : a.data = b.data := utf8Bytes_inj hAB
    cases a; cases b; exact congrArg String.mk this
  · intro h
    subst h
    rw [Nat.xor_self]
    apply foldl_lor_zero
    intro i _
    exact Nat.xor_self _

theorem labelTail_chars : ∀ (l : List Char) (b : Nat), labelTail b l = true →
    ∀ c ∈ l, (c.isAlphanum || isLabelChar c) = true := by
  intro l
  induction l with
  | nil => intro _ _ c hc; cases hc
  | cons d rest ih =>
    intro b h c hc
    cases rest with
    | nil =>
      simp only [labelTail] at h
      rcases List.mem_singleton.mp hc with rfl
      simp [h]
    | cons e rest2 =>
      simp only [labelTail, Bool.and_eq_true] at h
      rcases List.mem_cons.mp hc with rfl | hct
      · simp [h.1.2]
      · exact ih (b - 1) h.2 c hct

theorem labelOK_chars (l : List Char) (h : labelOK l = true) :
    ∀ c ∈ l, (c.isAlphanum || isLabelChar c) = true := by
  cases l with
  | nil => cases h
  | cons d rest =>
    simp only [labelOK, Bool.and_eq_true] at h
    intro c hc
    rcases List.mem_cons.mp hc with rfl | hct
    · simp [h.1]
    · exact labelTail_chars rest 61 h.2 c hct

theorem splitDots_ne_nil (cs : List Char) : splitDots cs ≠ [] := by
  induction cs with
  | nil => simp [splitDots]
  | cons c t ih =>
    by_cases hc : c = '.'
    · simp [splitDots, hc]
    · simp only [splitDots, if_neg hc]
      cases h : splitDots t with
      | nil => simp
      | cons g gs => simp

theorem splitDots_chars : ∀ (cs : List Char) (c : Char), c ∈ cs →
    c = '.' ∨ ∃ g, g ∈ splitDots cs ∧ c ∈ g := by
  intro cs
  induction cs with
  | nil => intro c hc; cases hc
  | cons d t ih =>
    intro c hc
    by_cases hd : d = '.'
    · rcases List.mem_cons.mp hc with rfl | hct
      · left; exact hd
      · rcases ih c hct with h | ⟨g, hg, hcg⟩
        · left; exact h
        · right
          refine ⟨g, ?_, hcg⟩
          simp only [splitDots, if_pos hd]
          exact List.mem_cons_of_mem _ hg
    · have hne := splitDots_ne_nil t
      cases hsp : splitDots t with
      | nil => exact absurd hsp hne
      | cons g0 gs =>
        rcases List.mem_cons.mp hc with rfl | hct
        · right
          refine ⟨c :: g0, ?_, List.mem_cons_self _ _⟩
          simp only [splitDots, if_neg hd, hsp]
          exact List.mem_cons_self _ _
        · rcases ih c hct with h | ⟨g, hg, hcg⟩
          · left; exact h
          · right
            rw [hsp] at hg
            rcases List.mem_cons.mp hg with rfl | hggs
            · refine ⟨d :: g, ?_, List.mem_cons_of_mem _ hcg⟩
              simp only [splitDots, if_neg hd, hsp]
              exact List.mem_cons_self _ _
            · refine ⟨g, ?_, hcg⟩
              simp only [splitDots, if_neg hd, hsp]
              exact List.mem_cons_of_mem _ hggs

theorem matchDomain_chars (cs : List Char) (h : matchDomain cs = true) :
    ∀ c ∈ cs, c ≠ ':' := by
  intro c hc
  rcases splitDots_chars cs c hc with rfl | ⟨g, hg, hcg⟩
  · decide
  · unfold matchDomain at h
    have hok := (List.all_eq_true.mp h) g hg
    have hch := labelOK_chars g hok c hcg
    intro hcolon
    subst hcolon
    revert hch
    decide

theorem splitLocalPart_chars : ∀ (cs : List Char) (d : List Char),
    splitLocalPart cs = some d →
    ∀ c ∈ cs, isLocalChar c = true ∨ c = '@' ∨ c ∈ d := by
  intro cs
  induction cs with
  | nil => intro d h; simp [splitLocalPart] at h
  | cons e t ih =>
    intro d h c hc
    simp only [splitLocalPart] at h
    by_cases he : e = '@'
    · rw [if_pos he] at h
      injection h with h
      rcases List.mem_cons.mp hc with rfl | hct
      · right; left; exact he
      · right; right; rw [← h]; exact hct
    · rw [if_neg he] at h
      by_cases hl : isLocalChar e
      · rw [if_pos hl] at h
        rcases List.mem_cons.mp hc with rfl | hct
        · left; exact hl
        · exact ih d h c hct
      · rw [if_neg hl] at h; cases h

theorem matchEmailChars_chars (cs : List Char) (h : matchEmailChars cs = true) :
    ∀ c ∈ cs, c ≠ ':' := by
  cases cs with
  | nil => cases h
  | cons c0 rest =>
    simp only [matchEmailChars, Bool.and_eq_true] at h
    obtain ⟨h0, hm⟩ := h
    intro c hc
    rcases List.mem_cons.mp hc with rfl | hct
    · intro hcolon; subst hcolon; revert h0; decide
    · cases hsp : splitLocalPart rest with
      | none => rw [hsp] at hm; cases hm
      | some dom =>
        rw [hsp] at hm
        rcases splitLocalPart_chars rest dom hsp c hct with hl | hat | hd
        · intro hcolon; subst hcolon; revert hl; decide
        · intro hcolon; rw [hcolon] at hat; cases hat
        · exact matchDomain_chars dom hm c hd

theorem isValidEmail_colonFree (e : String) (h : isValidEmail e = true) :
    colonFree e = true := by
  unfold isValidEmail at h
  rw [Bool.and_eq_true] at h
  obtain ⟨h1, _⟩ := h
  unfold colonFree
  apply List.all_eq_true.mpr
  intro c hc
  have := matchEmailChars_chars e.data h1 c hc
  simpa using this

theorem string_data_append (a b : String) : (a ++ b).data = a.data ++ b.data := by
  cases a; cases b; rfl

theorem colonFree_ne_reverseKey {e : String} (h : colonFree e = true) (u : String) :
    e ≠ reverseKey u := by
  intro heq
  rw [heq] at h
  unfold colonFree reverseKey at h
  rw [string_data_append, List.all_append, Bool.and_eq_true] at h
  exact absurd h.1 (by decide)

theorem reverseKey_inj {u v : String} (h : reverseKey u = reverseKey v) : u = v := by
  unfold reverseKey at h
  have hd := congrArg String.data h
  rw [string_data_append, string_data_append] at hd
  have huv := List.append_cancel_left hd
  cases u; cases v; exact congrArg String.mk huv

theorem applyWrites_pair_put (s : Store) (k1 v1 k2 v2 k : String) :
    applyWrites s [.put k1 v1, .put k2 v2] k =
      if k = k2 then some v2 else if k = k1 then some v1 else s k := rfl

theorem applyWrites_pair_del (s : Store) (k1 k2 k : String) :
    applyWrites s [.del k1, .del k2] k =
      if k = k2 then none else if k = k1 then none else s k := rfl

theorem applyWrites_single_del (s : Store) (k1 k : String) :
    applyWrites s [.del k1] k = if k = k1 then none else s k := rfl

theorem inv_bidiPut {s : Store} {email userId : String} (hInv : Inv s)
    (hemail : colonFree email = true) (hene : email ≠ "") (hu : userId ≠ "")
    (hfwd : s email = none ∨ s email = some userId)
    (hrev : s (reverseKey userId) = none ∨ s (reverseKey userId) = some email) :
    Inv (applyWrites s [.put email userId, .put (reverseKey userId) email]) := by
  refine ⟨?_, ?_, ?_⟩
  · intro e' u' hcf h'
    rw [applyWrites_pair_put, if_neg (colonFree_ne_reverseKey hcf userId)] at h'
    by_cases hee : e' = email
    · subst hee
      rw [if_pos rfl] at h'
      injection h' with h'
      subst h'
      rw [applyWrites_pair_put, if_pos rfl]
    · rw [if_neg hee] at h'
      have h1 := hInv.1 e' u' hcf h'
      by_cases huu : u' = userId
      · subst huu
        rcases hrev with hr | hr
        · rw [hr] at h1; cases h1
        · rw [hr] at h1
          injection h1 with h1
          exact absurd h1.symm hee
      · rw [applyWrites_pair_put,
          if_neg (fun hk => huu (reverseKey_inj hk)),
          if_neg (fun hk => colonFree_ne_reverseKey hemail u' hk.symm)]
        exact h1
  · intro w e' h'
    rw [applyWrites_pair_put] at h'
    by_cases hw : reverseKey w = reverseKey userId
    · rw [if_pos hw] at h'
      injection h' with h'
      subst h'
      have hwu := reverseKey_inj hw
      subst hwu
      refine ⟨hemail, hene, ?_⟩
      rw [applyWrites_pair_put, if_neg (colonFree_ne_reverseKey hemail w),
        if_pos rfl]
    · rw [if_neg hw,
        if_neg (fun hk => colonFree_ne_reverseKey hemail w hk.symm)] at h'
      obtain ⟨hcf', hne', hse'⟩ := hInv.2.1 w e' h'
      refine ⟨hcf', hne', ?_⟩
      rw [applyWrites_pair_put, if_neg (colonFree_ne_reverseKey hcf' userId)]
      by_cases he'email : e' = email
      · subst he'email
        rcases hfwd with hf | hf
        · rw [hf] at hse'; cases hse'
        · rw [hf] at hse'
          injection hse' with hse'
          exact absurd (congrArg reverseKey hse').symm hw
      · rw [if_neg he'email]
        exact hse'
  · intro e' u' hcf h'
    rw [applyWrites_pair_put, if_neg (colonFree_ne_reverseKey hcf userId)] at h'
    by_cases hee : e' = email
    · subst hee
      rw [if_pos rfl] at h'
      injection h' with h'
      subst h'
      exact hu
    · rw [if_neg hee] at h'
      exact hInv.2.2 e' u' hcf h'

theorem inv_bidiDel {s : Store} {email userId : String} (hInv : Inv s)
    (hcf : colonFree email = true)
    (hfwd : s email = some userId)
    (hrev : s (reverseKey userId) = some email) :
    Inv (applyWrites s [.del email, .del (reverseKey userId)]) := by
  refine ⟨?_, ?_, ?_⟩
  · intro e' u' hcf' h'
    rw [applyWrites_pair_del, if_neg (colonFree_ne_reverseKey hcf' userId)] at h'
    by_cases hee : e' = email
    · subst hee; rw [if_pos rfl] at h'; cases h'
    · rw [if_neg hee] at h'
      have h1 := hInv.1 e' u' hcf' h'
      have huu : u' ≠ userId := by
        intro hz
        subst hz
        rw [hrev] at h1
        injection h1 with h1
        exact hee h1.symm
      rw [applyWrites_pair_del,
        if_neg (fun hk => huu (reverseKey_inj hk)),
        if_neg (fun hk => colonFree_ne_reverseKey hcf u' hk.symm)]
      exact h1
  · intro w e' h'
    rw [applyWrites_pair_del] at h'
    by_cases hw : reverseKey w = reverseKey userId
    · rw [if_pos hw] at h'; cases h'
    · rw [if_neg hw,
        if_neg (fun hk => colonFree_ne_reverseKey hcf w hk.symm)] at h'
      obtain ⟨hcf', hne', hse'⟩ := hInv.2.1 w e' h'
      refine ⟨hcf', hne', ?_⟩
      have hee : e' ≠ email := by
        intro hz
        subst hz
        rw [hfwd] at hse'
        injection hse' with hse'
        exact hw (congrArg reverseKey hse'.symm)
      rw [applyWrites_pair_del, if_neg (colonFree_ne_reverseKey hcf' userId),
        if_neg hee]
      exact hse'
  · intro e' u' hcf' h'
    rw [applyWrites_pair_del, if_neg (colonFree_ne_reverseKey hcf' userId)] at h'
    by_cases hee : e' = email
    · subst hee; rw [if_pos rfl] at h'; cases h'
    · rw [if_neg hee] at h'
      exact hInv.2.2 e' u' hcf' h'

theorem inv_delMissing {s : Store} {email : String} (hInv : Inv s)
    (hcf : colonFree email = true)
    (hnone : s email = none) :
    Inv (applyWrites s [.del email]) := by
  refine ⟨?_, ?_, ?_⟩
  · intro e' u' hcf' h'
    rw [applyWrites_single_del] at h'
    by_cases hee : e' = email
    · subst hee; rw [if_pos rfl] at h'; cases h'
    · rw [if_neg hee] at h'
      rw [applyWrites_single_del,
        if_neg (fun hk => colonFree_ne_reverseKey hcf u' hk.symm)]
      exact hInv.1 e' u' hcf' h'
  · intro w e' h'
    rw [applyWrites_single_del,
      if_neg (fun hk => colonFree_ne_reverseKey hcf w hk.symm)] at h'
    obtain ⟨hcf', hne', hse'⟩ := hInv.2.1 w e' h'
    refine ⟨hcf', hne', ?_⟩
    have hee : e' ≠ email := by
      intro hz
      subst hz
      rw [hnone] at hse'
      cases hse'
    rw [applyWrites_single_del, if_neg hee]
    exact hse'
  · intro e' u' hcf' h'
    rw [applyWrites_single_del] at h'
    by_cases hee : e' = email
    · subst hee; rw [if_pos rfl] at h'; cases h'
    · rw [if_neg hee] at h'
      exact hInv.2.2 e' u' hcf' h'

theorem inv_applyOp (env : Env) (s : Store) (op : LinkOp)
    (hop : opSafe op = true) (hInv : Inv s) : Inv (applyOp env s op) := by
  cases op with
  | selfLink emailOpt userId gf =>
    simp only [opSafe, bne_iff_ne] at hop
    cases emailOpt with
    | none => exact hInv
    | some raw =>
      by_cases h1 : jsToLower raw = ""
      · simp only [applyOp, handleLinkCommand, if_pos h1]
        exact hInv
      · cases h2 : isValidEmail (jsToLower raw) with
        | false =>
          simp only [applyOp, handleLinkCommand, if_neg h1, h2, Bool.not_false, if_true]
          exact hInv
        | true =>
          cases h3 : conflictsWith (s (jsToLower raw)) userId with
          | true =>
            simp only [applyOp, handleLinkCommand, if_neg h1, h2, Bool.not_true,
              Bool.false_eq_true, if_false, h3, if_true]
            exact hInv
          | false =>
            have hemail := isValidEmail_colonFree _ h2
            have hfwd : s (jsToLower raw) = none ∨ s (jsToLower raw) = some userId := by
              cases hs : s (jsToLower raw) with
              | none => exact Or.inl rfl
              | some v =>
                right
                rw [hs] at h3
                simp only [conflictsWith, Bool.and_eq_false_iff,
                  bne_eq_false_iff_eq] at h3
                rcases h3 with hz | hz
                · exact absurd hz (hInv.2.2 _ v hemail hs)
                · rw [hz]
            cases hrev : s (reverseKey userId) with
            | none =>
              cases hg : getGhostMember gf with
              | error msg =>
                simp only [applyOp, handleLinkCommand, if_neg h1, h2, Bool.not_true,
                  Bool.false_eq_true, if_false, h3, hrev, linkVerifyAndWrite, hg]
                exact hInv
              | notFound =>
                simp only [applyOp, handleLinkCommand, if_neg h1, h2, Bool.not_true,
                  Bool.false_eq_true, if_false, h3, hrev, linkVerifyAndWrite, hg]
                exact hInv
              | found mem =>
                simp only [applyOp, handleLinkCommand, if_neg h1, h2, Bool.not_true,
                  Bool.false_eq_true, if_false, h3, hrev, linkVerifyAndWrite, hg]
                split
                · exact inv_bidiPut hInv hemail h1 hop hfwd (Or.inl hrev)
                · exact inv_bidiPut hInv hemail h1 hop hfwd (Or.inl hrev)
            | some ex =>
              obtain ⟨hcfex, hneex, hsex⟩ := hInv.2.1 userId ex hrev
              cases h4 : (ex != "" && ex != jsToLower raw) with
              | true =>
                simp only [applyOp, handleLinkCommand, if_neg h1, h2, Bool.not_true,
                  Bool.false_eq_true, if_false, h3, hrev, h4, if_true]
                exact hInv
              | false =>
                have hexeq : ex = jsToLower raw := by
                  simp only [Bool.and_eq_false_iff, bne_eq_false_iff_eq] at h4
                  rcases h4 with hz | hz
                  · exact absurd hz hneex
                  · exact hz
                have hrev' : s (reverseKey userId) = some (jsToLower raw) := by
                  rw [hrev, hexeq]
                cases hg : getGhostMember gf with
                | error msg =>
                  simp only [applyOp, handleLinkCommand, if_neg h1, h2, Bool.not_true,
                    Bool.false_eq_true, if_false, h3, hrev, h4, Bool.false_eq_true,
                    if_false, linkVerifyAndWrite, hg]
                  exact hInv
                | notFound =>
                  simp only [applyOp, handleLinkCommand, if_neg h1, h2, Bool.not_true,
                    Bool.false_eq_true, if_false, h3, hrev, h4, Bool.false_eq_true,
                    if_false, linkVerifyAndWrite, hg]
                  exact hInv
                | found mem =>
                  simp only [applyOp, handleLinkCommand, if_neg h1, h2, Bool.not_true,
                    Bool.false_eq_true, if_false, h3, hrev, h4, Bool.false_eq_true,
                    if_false, linkVerifyAndWrite, hg]
                  split
                  · exact inv_bidiPut hInv hemail h1 hop hfwd (Or.inr hrev')
                  · exact inv_bidiPut hInv hemail h1 hop hfwd (Or.inr hrev')
  | selfUnlink userId =>
    cases hrev : s (reverseKey userId) with
    | none =>
      simp only [applyOp, handleUnlinkCommand, hrev]
      exact hInv
    | some email =>
      obtain ⟨hcf, hne, hfwd⟩ := hInv.2.1 userId email hrev
      simp only [applyOp, handleUnlinkCommand, hrev, if_neg hne]
      exact inv_bidiDel hInv hcf hfwd hrev
  | adminPost auth body =>
    exact absurd hop (by simp [opSafe])
  | adminDelete auth body =>
    cases hadm : checkAdmin auth env with
    | false =>
      simp only [applyOp, handleLinkDelete, hadm, Bool.not_false, if_true]
      exact hInv
    | true =>
      cases body with
      | none =>
        simp only [applyOp, handleLinkDelete, hadm, Bool.not_true, Bool.false_eq_true,
          if_false]
        exact hInv
      | some b =>
        cases hbe : b.email with
        | none =>
          simp only [applyOp, handleLinkDelete, hadm, Bool.not_true, Bool.false_eq_true,
            if_false, hbe]
          exact hInv
        | some e =>
          simp only [opSafe, hbe] at hop
          by_cases hee : e = ""
          · simp only [applyOp, handleLinkDelete, hadm, Bool.not_true, Bool.false_eq_true,
              if_false, hbe, if_pos hee]
            exact hInv
          · cases hd : s (jsToLower e) with
            | none =>
              simp only [applyOp, handleLinkDelete, hadm, Bool.not_true, Bool.false_eq_true,
                if_false, hbe, if_neg hee, hd]
              exact inv_delMissing hInv hop hd
            | some v =>
              have hvne : v ≠ "" := hInv.2.2 _ v hop hd
              have hrev := hInv.1 _ v hop hd
              simp only [applyOp, handleLinkDelete, hadm, Bool.not_true, Bool.false_eq_true,
                if_false, hbe, if_neg hee, hd, if_neg hvne]
              exact inv_bidiDel hInv hop hd hrev

theorem inv_empty : Inv emptyStore := by
  refine ⟨?_, ?_, ?_⟩
  · intro e u _ h; cases h
  · intro u e h; cases h
  · intro e u _ h; cases h

theorem inv_runOps (env : Env) : ∀ (ops : List LinkOp) (s : Store),
    ops.all opSafe = true → Inv s → Inv (runOps env s ops) := by
  intro ops
  induction ops with
  | nil => intro s _ h; exact h
  | cons op t ih =>
    intro s hall hInv
    simp only [List.all_cons, Bool.and_eq_true] at hall
    simp only [runOps, List.foldl_cons]
    exact ih _ hall.2 (inv_applyOp env s op hall.1 hInv)

/-- A valid email is nonempty. -/
theorem isValidEmail_ne_empty {e : String} (h : isValidEmail e = true) : e ≠ "" := by
  intro hz
  rw [hz] at h
  exact absurd h (by decide)

/-- C1 (amended): after any sequence of successful self-service link,
self-service unlink, and administrative DELETE /link operations (with
nonempty requester ids and colon-free delete arguments; administrative POST
/link excluded, as it performs no conflict checks), the forward entry for a
colon-free email key resolves to a user id iff the reverse entry for that id
resolves to the email. -/
theorem selfservice_ops_preserve_bidirectional_mapping (env : Env) (ops : List LinkOp)
    (hsafe : ops.all opSafe = true) (e u : String) (hcf : colonFree e = true) :
    runOps env emptyStore ops e = some u ↔
      runOps env emptyStore ops (reverseKey u) = some e := by
  have hInv := inv_runOps env ops emptyStore hsafe inv_empty
  constructor
  · intro h
    exact hInv.1 e u hcf h
  · intro h
    exact (hInv.2.1 u e h).2.2

/-- Witness for C1 (amended) at a concrete operation sequence and key pair. -/
theorem selfservice_ops_preserve_bidirectional_mapping_witness :
    runOps sampleEnv emptyStore sampleSelfLinkOps "a@x.com" = some "u1" ↔
      runOps sampleEnv emptyStore sampleSelfLinkOps (reverseKey "u1") = some "a@x.com" :=
  selfservice_ops_preserve_bidirectional_mapping sampleEnv sampleSelfLinkOps (by decide)
    "a@x.com" "u1" (by decide)

/-- C1 counterexample: two successful administrative POST /link operations
from the empty store leave `a@x.com → u1` in the forward direction while the
reverse entry for `u1` resolves to `b@x.com`, so the claimed invariant fails
over sequences that include the administrative POST. -/
theorem adminPost_breaks_bidirectional_mapping :
    (handleLinkPost sampleEnv (some "Bearer admsec") (some ⟨some "a@x.com", some "u1"⟩)).response
        = AdminResponse.ok
    ∧ (handleLinkPost sampleEnv (some "Bearer admsec") (some ⟨some "b@x.com", some "u1"⟩)).response
        = AdminResponse.ok
    ∧ runOps sampleEnv emptyStore doublePostOps "a@x.com" = some "u1"
    ∧ ¬(runOps sampleEnv emptyStore doublePostOps "a@x.com" = some "u1" ↔
        runOps sampleEnv emptyStore doublePostOps (reverseKey "u1") = some "a@x.com") := by
  decide

/-- C2: for every webhook event on a mapped email, with previous status
ranging over free/paid/comped/absent and current over free/paid/comped, the
reconciler issues exactly the role calls of the matching row of the spec's
section 4.1 table, and a deletion event issues exactly the two revokes. -/
theorem reconciler_matches_decision_table (env : Env) (uid : String)
    (current : GhostMemberData) :
    webhookRoleCalls env uid current none = specTierAction env uid none current.status
    ∧ (∀ (p : PreviousData) (prevStatus : MemberStatus), p.status = some prevStatus →
        webhookRoleCalls env uid current (some p)
          = specTierAction env uid (some prevStatus) current.status)
    ∧ webhookDeletedRoleCalls env uid
        = [RoleCall.mk .delete uid env.DISCORD_ROLE_MEMBER,
           RoleCall.mk .delete uid env.DISCORD_ROLE_PREMIUM] := by
  refine ⟨?_, ?_, rfl⟩
  · cases hc : current.status <;>
      simp [webhookRoleCalls, specTierAction, isPaid, hc]
  · intro p prevStatus hp
    have hne : previousNonempty p = true := by
      simp [previousNonempty, hp]
    cases hps : prevStatus <;> cases hcs : current.status <;>
      simp_all [webhookRoleCalls, specTierAction, isPaid, previousNonempty]

/-- Witness for C2 at a concrete free-to-paid transition. -/
theorem reconciler_matches_decision_table_witness :
    webhookRoleCalls sampleEnv "U1" ⟨none, "a@x.com", none, .paid⟩
        (some ⟨none, none, none, some .free⟩)
      = specTierAction sampleEnv "U1" (some .free) .paid :=
  (reconciler_matches_decision_table sampleEnv "U1" ⟨none, "a@x.com", none, .paid⟩).2.1
    ⟨none, none, none, some .free⟩ .free rfl

/-- C3 counterexample: an updated event whose previous object is nonempty but
lacks a status (`previous = {name}`) issues no role calls, while the added
event for the same member grants the base role, so the two are not
identical. -/
theorem updated_without_status_differs_from_added :
    webhookRoleCalls sampleEnv "U1" ⟨none, "a@x.com", none, .free⟩ (some prevNameOnly)
      ≠ webhookRoleCalls sampleEnv "U1" ⟨none, "a@x.com", none, .free⟩ none := by
  decide

/-- C3 (amended): an updated event behaves identically to an added event only
when its previous field is absent or an empty object; the added behavior is
grant base plus premium iff paid; a nonempty previous object lacking a status
issues no role calls at all. -/
theorem updated_without_status_behavior (env : Env) (uid : String)
    (current : GhostMemberData) (p : PreviousData) :
    (previousNonempty p = false →
      webhookRoleCalls env uid current (some p) = webhookRoleCalls env uid current none)
    ∧ webhookRoleCalls env uid current none
        = RoleCall.mk .put uid env.DISCORD_ROLE_MEMBER ::
            (if isPaid current.status then
              [RoleCall.mk .put uid env.DISCORD_ROLE_PREMIUM]
            else [])
    ∧ (previousNonempty p = true → p.status = none →
        webhookRoleCalls env uid current (some p) = []) := by
  refine ⟨?_, ?_, ?_⟩
  · intro h
    simp [webhookRoleCalls, h]
  · simp [webhookRoleCalls]
  · intro h hs
    simp [webhookRoleCalls, h, hs]

/-- Witness for C3 (amended) at a concrete empty previous object. -/
theorem updated_without_status_behavior_witness :
    webhookRoleCalls sampleEnv "U1" ⟨none, "a@x.com", none, .paid⟩
        (some ⟨none, none, none, none⟩)
      = webhookRoleCalls sampleEnv "U1" ⟨none, "a@x.com", none, .paid⟩ none :=
  (updated_without_status_behavior sampleEnv "U1" ⟨none, "a@x.com", none, .paid⟩
    ⟨none, none, none, none⟩).1 rfl

theorem parseWebhookRequest_no_mapping (env : Env) (s : Store) (req : WebhookRequest)
    {secret : String} {payload : WebhookPayload} {m : MemberPayload}
    {current : GhostMemberData}
    (hsec : req.secret = some secret) (hsne : secret ≠ "")
    (hts : timingSafeEqual secret env.WEBHOOK_SECRET = true)
    (hp : req.payload = some payload) (hm : payload.member = some m)
    (hc : m.current = some current) (he : current.email ≠ "")
    (hmap : s (jsToLower current.email) = none) :
    parseWebhookRequest env s req = .inl ⟨.skippedNoMapping, [], []⟩ := by
  simp only [parseWebhookRequest, hsec, if_neg hsne, hts, Bool.not_true,
    Bool.false_eq_true, if_false, hp, hm, hc, if_neg he, hmap]

theorem parseWebhookRequest_found (env : Env) (s : Store) (req : WebhookRequest)
    {secret : String} {payload : WebhookPayload} {m : MemberPayload}
    {current : GhostMemberData} {uid : String}
    (hsec : req.secret = some secret) (hsne : secret ≠ "")
    (hts : timingSafeEqual secret env.WEBHOOK_SECRET = true)
    (hp : req.payload = some payload) (hm : payload.member = some m)
    (hc : m.current = some current) (he : current.email ≠ "")
    (hmap : s (jsToLower current.email) = some uid) (hune : uid ≠ "") :
    parseWebhookRequest env s req
      = .inr ⟨jsToLower current.email, uid, current, m.previous⟩ := by
  simp only [parseWebhookRequest, hsec, if_neg hsne, hts, Bool.not_true,
    Bool.false_eq_true, if_false, hp, hm, hc, if_neg he, hmap, if_neg hune]

/-- C4: an authenticated, well-formed webhook event (added/updated or
deleted) whose normalized email has no mapping entry issues zero role calls,
performs zero store writes, and returns the HTTP 200 skipped/no-mapping
success response, never an error. -/
theorem no_mapping_event_is_noop_success (env : Env) (s : Store) (req : WebhookRequest)
    (oracle : RoleCall → Option String)
    (secret : String) (payload : WebhookPayload) (m : MemberPayload)
    (current : GhostMemberData)
    (hsec : req.secret = some secret) (hsne : secret ≠ "")
    (hts : timingSafeEqual secret env.WEBHOOK_SECRET = true)
    (hp : req.payload = some payload) (hm : payload.member = some m)
    (hc : m.current = some current) (he : current.email ≠ "")
    (hmap : s (jsToLower current.email) = none) :
    handleWebhook env s req oracle = ⟨.skippedNoMapping, [], []⟩
    ∧ handleWebhookDeleted env s req oracle = ⟨.skippedNoMapping, [], []⟩
    ∧ responseStatus .skippedNoMapping = 200 := by
  have hparse := parseWebhookRequest_no_mapping env s req hsec hsne hts hp hm hc he hmap
  refine ⟨?_, ?_, rfl⟩
  · simp only [handleWebhook, hparse]
  · simp only [handleWebhookDeleted, hparse]

/-- Witness for C4 on the empty store. -/
theorem no_mapping_event_is_noop_success_witness :
    handleWebhook sampleEnv emptyStore sampleWebhookReq (fun _ => none)
        = ⟨.skippedNoMapping, [], []⟩
    ∧ handleWebhookDeleted sampleEnv emptyStore sampleWebhookReq (fun _ => none)
        = ⟨.skippedNoMapping, [], []⟩
    ∧ responseStatus .skippedNoMapping = 200 :=
  no_mapping_event_is_noop_success sampleEnv emptyStore sampleWebhookReq (fun _ => none)
    "whsec" ⟨some ⟨some ⟨none, "A@x.com", none, .paid⟩, none⟩⟩
    ⟨some ⟨none, "A@x.com", none, .paid⟩, none⟩ ⟨none, "A@x.com", none, .paid⟩
    rfl (by decide) (by decide) rfl rfl rfl (by decide) rfl

/-- C8: once the mapping lookup succeeded, the webhook handlers return the
same HTTP 200 success response for every combination of role-call outcomes
(the oracle), the added/updated handler attempts exactly the reconciliation
calls, and the deleted handler attempts both revokes. -/
theorem role_failures_never_change_response (env : Env) (s : Store)
    (req : WebhookRequest) (o1 o2 : RoleCall → Option String)
    (secret : String) (payload : WebhookPayload) (m : MemberPayload)
    (current : GhostMemberData) (uid : String)
    (hsec : req.secret = some secret) (hsne : secret ≠ "")
    (hts : timingSafeEqual secret env.WEBHOOK_SECRET = true)
    (hp : req.payload = some payload) (hm : payload.member = some m)
    (hc : m.current = some current) (he : current.email ≠ "")
    (hmap : s (jsToLower current.email) = some uid) (hune : uid ≠ "") :
    handleWebhook env s req o1 = handleWebhook env s req o2
    ∧ handleWebhookDeleted env s req o1 = handleWebhookDeleted env s req o2
    ∧ handleWebhook env s req o1 = ⟨.ok, webhookRoleCalls env uid current m.previous, []⟩
    ∧ handleWebhookDeleted env s req o1 = ⟨.ok, webhookDeletedRoleCalls env uid, []⟩
    ∧ responseStatus .ok = 200 := by
  have hparse := parseWebhookRequest_found env s req hsec hsne hts hp hm hc he hmap hune
  refine ⟨rfl, rfl, ?_, ?_, rfl⟩
  · simp only [handleWebhook, hparse]
  · simp only [handleWebhookDeleted, hparse]

/-- Witness for C8 on a mapped store with two different oracles. -/
theorem role_failures_never_change_response_witness :
    handleWebhook sampleEnv sampleMappedStore sampleWebhookReq (fun _ => none)
        = handleWebhook sampleEnv sampleMappedStore sampleWebhookReq (fun _ => some "boom")
    ∧ handleWebhookDeleted sampleEnv sampleMappedStore sampleWebhookReq (fun _ => none)
        = handleWebhookDeleted sampleEnv sampleMappedStore sampleWebhookReq
            (fun _ => some "boom")
    ∧ handleWebhook sampleEnv sampleMappedStore sampleWebhookReq (fun _ => none)
        = ⟨.ok, webhookRoleCalls sampleEnv "U1" ⟨none, "A@x.com", none, .paid⟩ none, []⟩
    ∧ handleWebhookDeleted sampleEnv sampleMappedStore sampleWebhookReq (fun _ => none)
        = ⟨.ok, webhookDeletedRoleCalls sampleEnv "U1", []⟩
    ∧ responseStatus .ok = 200 :=
  role_failures_never_change_response sampleEnv sampleMappedStore sampleWebhookReq
    (fun _ => none) (fun _ => some "boom")
    "whsec" ⟨some ⟨some ⟨none, "A@x.com", none, .paid⟩, none⟩⟩
    ⟨some ⟨none, "A@x.com", none, .paid⟩, none⟩ ⟨none, "A@x.com", none, .paid⟩ "U1"
    rfl (by decide) (by decide) rfl rfl rfl (by decide) (by decide) (by decide)

/-- C5: a self-service link whose forward entry resolves to a different user
id, or (that check passing) whose reverse entry resolves to a different
email, is rejected with the corresponding conflict reply, performing zero
store writes and zero role calls. -/
theorem link_conflict_leaves_no_trace (env : Env) (s : Store) (raw userId : String)
    (gf : GhostFetchOutcome) (oracle : RoleCall → Option String)
    (hval : isValidEmail (jsToLower raw) = true) :
    (∀ v, s (jsToLower raw) = some v → v ≠ "" → v ≠ userId →
      handleLinkCommand env s (some raw) userId gf oracle
        = ⟨"This email is already linked to another Discord account.", [], []⟩)
    ∧ (∀ ex, conflictsWith (s (jsToLower raw)) userId = false →
        s (reverseKey userId) = some ex → ex ≠ "" → ex ≠ jsToLower raw →
        handleLinkCommand env s (some raw) userId gf oracle
          = ⟨"Your Discord account is already linked to **" ++ ex ++
              "**. Use \x60/unlink\x60 first.", [], []⟩) := by
  have hene := isValidEmail_ne_empty hval
  constructor
  · intro v hv hvne hvu
    have hcw : conflictsWith (s (jsToLower raw)) userId = true := by
      simp [conflictsWith, hv, bne_iff_ne, hvne, hvu]
    simp only [handleLinkCommand, if_neg hene, hval, Bool.not_true, Bool.false_eq_true,
      if_false, hcw, if_true]
  · intro ex hncw hex hexne hexem
    have h4 : (ex != "" && ex != jsToLower raw) = true := by
      simp [bne_iff_ne, hexne, hexem]
    simp only [handleLinkCommand, if_neg hene, hval, Bool.not_true, Bool.false_eq_true,
      if_false, hncw, hex, h4, if_true]

/-- Witness for C5: both conflict shapes at concrete stores. -/
theorem link_conflict_leaves_no_trace_witness :
    handleLinkCommand sampleEnv (fun k => if k = "b@x.com" then some "U1" else none)
        (some "B@X.com") "U2" sampleFoundFetch (fun _ => none)
      = ⟨"This email is already linked to another Discord account.", [], []⟩ :=
  (link_conflict_leaves_no_trace sampleEnv
      (fun k => if k = "b@x.com" then some "U1" else none)
      "B@X.com" "U2" sampleFoundFetch (fun _ => none) (by decide)).1
    "U1" (by decide) (by decide) (by decide)

/-- C6: once the conflict checks pass, a directory not-found rejects the
link with the not-a-member reply, and a directory error (thrown fetch or
non-2xx response) rejects it with the sanitized unavailable message that does
not depend on the raw transport error; all three outcomes perform zero store
writes and zero role calls. -/
theorem link_directory_failure_rejection (env : Env) (s : Store) (raw userId : String)
    (oracle : RoleCall → Option String)
    (hval : isValidEmail (jsToLower raw) = true)
    (hncw : conflictsWith (s (jsToLower raw)) userId = false)
    (hnrev : conflictsWith (s (reverseKey userId)) (jsToLower raw) = false) :
    (∀ err, handleLinkCommand env s (some raw) userId (.fetchError err) oracle
        = ⟨"An error occurred while verifying your email: "
            ++ "Unable to reach Ghost API.", [], []⟩)
    ∧ (∀ st body members, ¬(200 ≤ st ∧ st < 300) →
        handleLinkCommand env s (some raw) userId (.response st body members) oracle
          = ⟨"An error occurred while verifying your email: "
              ++ ("Ghost API returned " ++ toString st ++ "."), [], []⟩)
    ∧ (∀ st body, 200 ≤ st ∧ st < 300 →
        handleLinkCommand env s (some raw) userId (.response st body []) oracle
          = ⟨"This email is not associated with any Ghost membership.", [], []⟩) := by
  have hene := isValidEmail_ne_empty hval
  have hred : ∀ gf, handleLinkCommand env s (some raw) userId gf oracle
      = linkVerifyAndWrite env (jsToLower raw) userId gf oracle := by
    intro gf
    cases hrev : s (reverseKey userId) with
    | none =>
      simp only [handleLinkCommand, if_neg hene, hval, Bool.not_true, Bool.false_eq_true,
        if_false, hncw, hrev]
    | some ex =>
      have h4 : (ex != "" && ex != jsToLower raw) = false := by
        rw [hrev] at hnrev
        simpa [conflictsWith] using hnrev
      simp only [handleLinkCommand, if_neg hene, hval, Bool.not_true, Bool.false_eq_true,
        if_false, hncw, hrev, h4, if_false]
  refine ⟨?_, ?_, ?_⟩
  · intro err
    rw [hred]
    simp only [linkVerifyAndWrite, getGhostMember]
  · intro st body members hst
    rw [hred]
    simp only [linkVerifyAndWrite, getGhostMember, if_neg hst]
  · intro st body hst
    rw [hred]
    simp only [linkVerifyAndWrite, getGhostMember, if_pos hst]

/-- Witness for C6 on the empty store. -/
theorem link_directory_failure_rejection_witness :
    handleLinkCommand sampleEnv emptyStore (some "new@x.com") "U3"
        (.response 200 "" []) (fun _ => none)
      = ⟨"This email is not associated with any Ghost membership.", [], []⟩ :=
  (link_directory_failure_rejection sampleEnv emptyStore "new@x.com" "U3"
      (fun _ => none) (by decide) (by decide) (by decide)).2.2
    200 "" (by decide)

/-- C7: unlink issues no role calls; with no (truthy) reverse mapping it
returns the no-op reply and performs no writes, so repeated calls are safe;
with a reverse mapping it deletes both entries, which removes the forward and
reverse keys from the store, and reports success. -/
theorem unlink_idempotent_and_role_free (s : Store) (userId : String) :
    (handleUnlinkCommand s userId).roleCalls = []
    ∧ (s (reverseKey userId) = none →
        handleUnlinkCommand s userId
          = ⟨"No email is linked to your Discord account.", [], []⟩)
    ∧ (∀ email, s (reverseKey userId) = some email → email ≠ "" →
        handleUnlinkCommand s userId
          = ⟨"Your email **" ++ email ++ "** has been unlinked from your Discord account.",
              [StoreWrite.del email, StoreWrite.del (reverseKey userId)], []⟩
          ∧ applyWrites s [StoreWrite.del email, StoreWrite.del (reverseKey userId)] email
              = none
          ∧ applyWrites s [StoreWrite.del email, StoreWrite.del (reverseKey userId)]
              (reverseKey userId) = none) := by
  refine ⟨?_, ?_, ?_⟩
  · cases h : s (reverseKey userId) with
    | none => simp only [handleUnlinkCommand, h]
    | some email =>
      simp only [handleUnlinkCommand, h]
      split <;> rfl
  · intro h
    simp only [handleUnlinkCommand, h]
  · intro email h hne
    refine ⟨by simp only [handleUnlinkCommand, h, if_neg hne], ?_, ?_⟩
    · rw [applyWrites_pair_del]
      by_cases hk : email = reverseKey userId
      · rw [if_pos hk]
      · rw [if_neg hk, if_pos rfl]
    · rw [applyWrites_pair_del, if_pos rfl]

/-- Witness for C7 on a store with one linked pair. -/
theorem unlink_idempotent_and_role_free_witness :
    handleUnlinkCommand (fun k => if k = reverseKey "u1" then some "a@x.com" else none) "u1"
      = ⟨"Your email **a@x.com** has been unlinked from your Discord account.",
          [StoreWrite.del "a@x.com", StoreWrite.del (reverseKey "u1")], []⟩ :=
  ((unlink_idempotent_and_role_free
      (fun k => if k = reverseKey "u1" then some "a@x.com" else none) "u1").2.2
    "a@x.com" (by decide) (by decide)).1

/-- C10: when the forward entry already resolves to the requester and the
reverse entry is absent or resolves to the same email, the self-service link
passes both conflict checks, proceeds to membership verification, and on a
found member rewrites the same bidirectional mapping and re-grants the
roles. -/
theorem relink_same_pair_not_conflict (env : Env) (s : Store) (raw userId : String)
    (gf : GhostFetchOutcome) (oracle : RoleCall → Option String) (mem : GhostMemberData)
    (hval : isValidEmail (jsToLower raw) = true)
    (hfwd : s (jsToLower raw) = some userId)
    (hrev : s (reverseKey userId) = none ∨ s (reverseKey userId) = some (jsToLower raw))
    (hg : getGhostMember gf = .found mem) :
    handleLinkCommand env s (some raw) userId gf oracle
      = linkVerifyAndWrite env (jsToLower raw) userId gf oracle
    ∧ (handleLinkCommand env s (some raw) userId gf oracle).writes
        = [StoreWrite.put (jsToLower raw) userId,
           StoreWrite.put (reverseKey userId) (jsToLower raw)]
    ∧ (handleLinkCommand env s (some raw) userId gf oracle).roleCalls
        = (if isPaid mem.status then
            [RoleCall.mk .put userId env.DISCORD_ROLE_MEMBER,
             RoleCall.mk .put userId env.DISCORD_ROLE_PREMIUM]
           else [RoleCall.mk .put userId env.DISCORD_ROLE_MEMBER])
    ∧ ((handleLinkCommand env s (some raw) userId gf oracle).reply
          = "Your email **" ++ jsToLower raw ++ "** has been linked to your Discord account."
        ∨ (handleLinkCommand env s (some raw) userId gf oracle).reply
          = "Your email **" ++ jsToLower raw ++
              "** has been linked, but roles could not be assigned. Please contact an administrator.")
    ∧ applyWrites s (handleLinkCommand env s (some raw) userId gf oracle).writes
        (jsToLower raw) = some userId
    ∧ applyWrites s (handleLinkCommand env s (some raw) userId gf oracle).writes
        (reverseKey userId) = some (jsToLower raw) := by
  have hene := isValidEmail_ne_empty hval
  have hcf := isValidEmail_colonFree _ hval
  have hncw : conflictsWith (s (jsToLower raw)) userId = false := by
    simp [conflictsWith, hfwd]
  have hred : handleLinkCommand env s (some raw) userId gf oracle
      = linkVerifyAndWrite env (jsToLower raw) userId gf oracle := by
    rcases hrev with hr | hr
    · simp only [handleLinkCommand, if_neg hene, hval, Bool.not_true, Bool.false_eq_true,
        if_false, hncw, hr]
    · have h4 : (jsToLower raw != "" && jsToLower raw != jsToLower raw) = false := by simp
      simp only [handleLinkCommand, if_neg hene, hval, Bool.not_true, Bool.false_eq_true,
        if_false, hncw, hr, h4, if_false]
  have hwrites : (handleLinkCommand env s (some raw) userId gf oracle).writes
      = [StoreWrite.put (jsToLower raw) userId,
         StoreWrite.put (reverseKey userId) (jsToLower raw)] := by
    rw [hred]
    simp only [linkVerifyAndWrite, hg]
    split <;> split <;> rfl
  refine ⟨hred, hwrites, ?_, ?_, ?_, ?_⟩
  · rw [hred]
    cases hp : isPaid mem.status <;>
      simp [linkVerifyAndWrite, hg, hp] <;> split <;> rfl
  · rw [hred]
    cases hp : isPaid mem.status <;>
      simp only [linkVerifyAndWrite, hg, hp, Bool.false_eq_true, if_false, if_true] <;>
      split
    · left; rfl
    · right; rfl
    · left; rfl
    · right; rfl
  · rw [hwrites, applyWrites_pair_put,
      if_neg (colonFree_ne_reverseKey hcf userId), if_pos rfl]
  · rw [hwrites, applyWrites_pair_put, if_pos rfl]

/-- Witness for C10: re-linking an already linked pair. -/
theorem relink_same_pair_not_conflict_witness :
    (handleLinkCommand sampleEnv
        (fun k => if k = "a@x.com" then some "u1"
                  else if k = reverseKey "u1" then some "a@x.com" else none)
        (some "A@X.com") "u1" sampleFoundFetch (fun _ => none)).writes
      = [StoreWrite.put "a@x.com" "u1", StoreWrite.put (reverseKey "u1") "a@x.com"] :=
  (relink_same_pair_not_conflict sampleEnv
      (fun k => if k = "a@x.com" then some "u1"
                else if k = reverseKey "u1" then some "a@x.com" else none)
      "A@X.com" "u1" sampleFoundFetch (fun _ => none) samplePaidMember
      (by decide) (by decide) (Or.inr (by decide)) (by decide)).2.1

/-- C9: the constant-time comparison of `utils.ts` is an equality decision
procedure on strings: it returns true exactly when its arguments are equal
(in particular, differing byte lengths force a nonzero accumulator and a
false result). -/
theorem timingSafeEqual_decides_equality (a b : String) :
    timingSafeEqual a b = true ↔ a = b :=
  timingSafeEqual_eq_iff a b

end GhostDiscord
